import Mathlib

/-!
Verification of the h5pack partition planning / virtual concatenation engine.

This file gives a shallow embedding (in Lean 4) of the row-slice planner,
the virtual concatenation builder's offset-accounting scan, the audio field
encoder and its paired extractor, the audio validators, the checksum-ledger
verifier, the producer gating of the `info`/`unpack` commands, and the
supervisor loop of the parallel partition writer, together with theorems
settling the stated properties of each.
-/

namespace H5pack

/-! ## Slice planner (`total_to_list_slices`) -/

/-- Modelled from the spec: `total_to_list_slices` lives in
`h5pack/core/utils.py`, which is absent from the source snapshot (only its
callers in `cli/pack.py` / `cli/utils.py` are present).  Per spec §4.1 the
planner requires `1 <= num_partitions <= total_rows` (else it raises
`ConfigurationError`, modelled as `none`) and distributes rows as evenly as
possible into contiguous half-open ranges covering `[0, total)`: partition
`i` starts at `i * floor(total/n) + min i (total % n)`, so the first
`total % n` partitions receive one extra row. -/
def sliceBound (total slices i : Nat) : Nat :=
  i * (total / slices) + min i (total % slices)

/-- Modelled from the spec: the list of half-open `(start, end)` row ranges,
one per partition. -/
def planList (total slices : Nat) : List (Nat × Nat) :=
  (List.range slices).map fun i =>
    (sliceBound total slices i, sliceBound total slices (i + 1))

/-- Modelled from the spec: see `sliceBound`.  `none` models the
`ConfigurationError` raised when partitions outnumber rows (or are zero). -/
def total_to_list_slices (total slices : Nat) : Option (List (Nat × Nat)) :=
  if slices < 1 ∨ total < slices then none
  else some (planList total slices)

theorem sliceBound_zero (total slices : Nat) : sliceBound total slices 0 = 0 := by
  simp [sliceBound]

theorem sliceBound_succ_sub (total slices i : Nat) :
    sliceBound total slices (i + 1) - sliceBound total slices i =
      total / slices + (min (i + 1) (total % slices) - min i (total % slices)) := by
  simp only [sliceBound, Nat.succ_mul]
  generalize total / slices = q
  generalize total % slices = r
  omega

theorem sliceBound_size_bounds (total slices i : Nat) :
    total / slices ≤ sliceBound total slices (i + 1) - sliceBound total slices i ∧
      sliceBound total slices (i + 1) - sliceBound total slices i ≤ total / slices + 1 := by
  simp only [sliceBound, Nat.succ_mul]
  generalize total / slices = q
  generalize total % slices = r
  omega

theorem sliceBound_last (total slices : Nat) (h1 : 1 ≤ slices) :
    sliceBound total slices slices = total := by
  have hmod : total % slices < slices := Nat.mod_lt _ (by omega)
  have hdiv : slices * (total / slices) + total % slices = total := Nat.div_add_mod total slices
  simp only [sliceBound]
  omega

theorem planList_getElem? (total n i : Nat) :
    (planList total n)[i]? =
      if i < n then some (sliceBound total n i, sliceBound total n (i + 1))
      else none := by
  by_cases h : i < n
  · rw [if_pos h]
    simp [planList, List.getElem?_map, List.getElem?_range h]
  · rw [if_neg h]
    exact List.getElem?_eq_none (by simpa [planList] using Nat.le_of_not_lt h)

theorem planList_length (total n : Nat) : (planList total n).length = n := by
  simp [planList]

/-- C1: for every `total_rows >= num_partitions >= 1` the slice planner
returns exactly `num_partitions` half-open ranges that are contiguous and
gapless — the first range starts at `0`, each range's end equals the next
range's start, the last range's end equals `total_rows` — and the sizes of
any two ranges differ by at most `1`. -/
theorem slice_planner_contiguous_even (total n : Nat) (h1 : 1 ≤ n)
    (h2 : n ≤ total) :
    ∃ l, total_to_list_slices total n = some l ∧
      l.length = n ∧
      (∀ p : Nat × Nat, l[0]? = some p → p.1 = 0) ∧
      (∀ (i : Nat) (p q : Nat × Nat), l[i]? = some p → l[i + 1]? = some q → p.2 = q.1) ∧
      (∀ p : Nat × Nat, l[n - 1]? = some p → p.2 = total) ∧
      (∀ (i j : Nat) (p q : Nat × Nat), l[i]? = some p → l[j]? = some q →
        p.2 - p.1 ≤ (q.2 - q.1) + 1) := by
  have hc : ¬ (n < 1 ∨ total < n) := by omega
  refine ⟨planList total n, by rw [total_to_list_slices, if_neg hc], planList_length total n,
    ?_, ?_, ?_, ?_⟩
  · intro p hp
    rw [planList_getElem?, if_pos (by omega : 0 < n)] at hp
    cases hp
    exact sliceBound_zero total n
  · intro i p q hp hq
    rw [planList_getElem?] at hp hq
    by_cases hi : i < n
    · by_cases hi1 : i + 1 < n
      · rw [if_pos hi] at hp
        rw [if_pos hi1] at hq
        cases hp; cases hq; rfl
      · rw [if_neg hi1] at hq
        cases hq
    · rw [if_neg hi] at hp
      cases hp
  · intro p hp
    rw [planList_getElem?, if_pos (by omega : n - 1 < n)] at hp
    cases hp
    have : n - 1 + 1 = n := by omega
    rw [this]
    exact sliceBound_last total n h1
  · intro i j p q hp hq
    rw [planList_getElem?] at hp hq
    by_cases hi : i < n
    · by_cases hj : j < n
      · rw [if_pos hi] at hp
        rw [if_pos hj] at hq
        cases hp; cases hq
        have hbi := sliceBound_size_bounds total n i
        have hbj := sliceBound_size_bounds total n j
        simp only
        omega
      · rw [if_neg hj] at hq
        cases hq
    · rw [if_neg hi] at hp
      cases hp

/-- Witness for C1 at `total_rows = 10`, `num_partitions = 3`. -/
theorem slice_planner_contiguous_even_witness :
    (1 ≤ 3 ∧ 3 ≤ 10) ∧
      ∃ l, total_to_list_slices 10 3 = some l ∧
        l.length = 3 ∧
        (∀ p : Nat × Nat, l[0]? = some p → p.1 = 0) ∧
        (∀ (i : Nat) (p q : Nat × Nat), l[i]? = some p → l[i + 1]? = some q → p.2 = q.1) ∧
        (∀ p : Nat × Nat, l[3 - 1]? = some p → p.2 = 10) ∧
        (∀ (i j : Nat) (p q : Nat × Nat), l[i]? = some p → l[j]? = some q →
          p.2 - p.1 ≤ (q.2 - q.1) + 1) :=
  ⟨by decide, slice_planner_contiguous_even 10 3 (by decide) (by decide)⟩

/-- The planner's concrete output on 10 rows and 3 partitions, matching the
spec's example split `[0,4),[4,7),[7,10)`. -/
theorem slice_planner_example :
    total_to_list_slices 10 3 = some [(0, 4), (4, 7), (7, 10)] := by
  decide

/-! ## String and path primitives -/

/-- `listStarts pat s` : `pat` is an initial segment of `s`.  Written by
recursion on characters so that concrete instances reduce in the kernel. -/
def listStarts : List Char → List Char → Bool
  | [], _ => true
  | _ :: _, [] => false
  | a :: as, b :: bs => a == b && listStarts as bs

/-- Python `str.startswith`. -/
def strStarts (s pat : String) : Bool := listStarts pat.data s.data

/-- Python `os.path.isabs` for POSIX paths. -/
def isAbs (p : String) : Bool := strStarts p "/"

/-- Python `os.path.abspath`: an absolute path is returned unchanged, a
relative one is joined to the current working directory. -/
def abspath (cwd p : String) : String := if isAbs p then p else cwd ++ "/" ++ p

/-- Helper for `basename`: keeps the characters seen since the last `/`. -/
def basenameChars : List Char → List Char → List Char
  | [], cur => cur
  | c :: cs, cur =>
    if c == '/' then basenameChars cs [] else basenameChars cs (cur ++ [c])

/-- Python `os.path.basename` for POSIX paths. -/
def basename (p : String) : String := ⟨basenameChars p.data []⟩

/-- Association-list lookup (first match), modelling a Python dict read. -/
def lookupA {α : Type} (m : List (String × α)) (k : String) : Option α :=
  (m.find? (fun e => e.1 == k)).map (fun e => e.2)

/-- The effective value of attribute `k` after the sequence of attribute
writes `ws` (each `h5_file.attrs[k] = v` overwrites, so the last write to a
key wins). -/
def lookupLast {α : Type} (ws : List (String × α)) (k : String) : Option α :=
  (ws.reverse.find? (fun e => e.1 == k)).map (fun e => e.2)

/-! ## Data model of container files -/

/-- One named dataset of a partition file's `data` group as the virtual
concatenation builder reads it (`cli/utils.py`,
`create_virtual_dataset_from_partitions`): name, full shape (leading
dimension first), dtype, and dataset-level attributes. -/
structure FieldDs where
  name : String
  shape : List Nat
  dtype : String
  attrs : List (String × String)
deriving Repr, DecidableEq

/-- A partition container file: the datasets of its `data` group in
iteration order (names are unique within an HDF5 group), and its root
attributes. -/
structure PartitionFile where
  fields : List FieldDs
  attrs : List (String × String)
deriving Repr, DecidableEq

/-! ## Virtual concatenation builder: the offset-accounting scan -/

/-- One recorded per-partition field entry of the builder's scan,
`{"dtype", "shape", "start_idx", "end_idx"}` (`cli/utils.py` lines 199-208). -/
structure PEntry where
  dtype : String
  shape : List Nat
  start_idx : Nat
  end_idx : Nat
deriving Repr, DecidableEq

/-- The builder's inner scan loop over one partition's fields: threads the
cumulative per-field offset map `accum_idx` and records one entry per field.
`d.shape.headD 0` models `field_data.shape[0]` (datasets here always have at
least one axis). -/
def scanPartFields (accum : String → Nat) :
    List FieldDs → (String → Nat) × List (String × PEntry)
  | [] => (accum, [])
  | d :: rest =>
    let s := accum d.name
    let e := s + d.shape.headD 0
    let accum' : String → Nat := fun nm => if nm = d.name then e else accum nm
    let (a2, es) := scanPartFields accum' rest
    (a2, (d.name, ⟨d.dtype, d.shape, s, e⟩) :: es)

/-- The builder's outer scan loop over partition files in given order. -/
def scanPartitions (accum : String → Nat) :
    List PartitionFile → (String → Nat) × List (List (String × PEntry))
  | [] => (accum, [])
  | p :: rest =>
    let (a1, es) := scanPartFields accum p.fields
    let (a2, rs) := scanPartitions a1 rest
    (a2, es :: rs)

/-- The `(start_idx, end_idx)` ranges recorded for field `f`, in partition
file order. -/
def rangesFor (f : String) (recs : List (List (String × PEntry))) :
    List (Nat × Nat) :=
  (recs.map (fun es =>
    es.filterMap (fun t =>
      if t.1 = f then some (t.2.start_idx, t.2.end_idx) else none))).flatten

/-- The ranges recorded for field `f` by a scan of `parts` starting from a
zero offset table. -/
def recordedRanges (parts : List PartitionFile) (f : String) : List (Nat × Nat) :=
  rangesFor f (scanPartitions (fun _ => 0) parts).2

/-- The leading-dimension sizes contributed to field `f`, in file order. -/
def dimsFor (f : String) (parts : List PartitionFile) : List Nat :=
  (parts.map (fun p =>
    p.fields.filterMap (fun d =>
      if d.name = f then some (d.shape.headD 0) else none))).flatten

/-- Specification list of contiguous ranges: starting at `s`, one half-open
range per dimension. -/
def offsetRanges (s : Nat) : List Nat → List (Nat × Nat)
  | [] => []
  | d :: ds => (s, s + d) :: offsetRanges (s + d) ds

theorem scanPartFields_accum (fields : List FieldDs) (accum : String → Nat)
    (g : String) :
    (scanPartFields accum fields).1 g =
      accum g + (fields.filterMap (fun d =>
        if d.name = g then some (d.shape.headD 0) else none)).sum := by
  induction fields generalizing accum with
  | nil => simp [scanPartFields]
  | cons d rest ih =>
    simp only [scanPartFields, List.filterMap_cons]
    by_cases hd : d.name = g
    · rw [if_pos hd]
      rw [ih]
      simp [hd]
      omega
    · rw [if_neg hd]
      rw [ih]
      have hg : ¬ g = d.name := fun h => hd h.symm
      simp [hg]

theorem scanPartFields_ranges (fields : List FieldDs) (accum : String → Nat)
    (f : String) :
    (scanPartFields accum fields).2.filterMap (fun t =>
        if t.1 = f then some (t.2.start_idx, t.2.end_idx) else none) =
      offsetRanges (accum f) (fields.filterMap (fun d =>
        if d.name = f then some (d.shape.headD 0) else none)) := by
  induction fields generalizing accum with
  | nil => simp [scanPartFields, offsetRanges]
  | cons d rest ih =>
    simp only [scanPartFields, List.filterMap_cons]
    by_cases hd : d.name = f
    · rw [if_pos hd, if_pos hd]
      rw [ih]
      simp [offsetRanges, hd]
    · rw [if_neg hd, if_neg hd]
      rw [ih]
      have hg : ¬ f = d.name := fun h => hd h.symm
      simp [hg]

theorem scanPartitions_accum (parts : List PartitionFile) (accum : String → Nat)
    (g : String) :
    (scanPartitions accum parts).1 g = accum g + (dimsFor g parts).sum := by
  induction parts generalizing accum with
  | nil => simp [scanPartitions, dimsFor]
  | cons p rest ih =>
    simp only [scanPartitions]
    rw [ih, scanPartFields_accum]
    simp [dimsFor]
    omega

theorem scanPartitions_ranges (parts : List PartitionFile) (accum : String → Nat)
    (f : String) :
    rangesFor f (scanPartitions accum parts).2 =
      offsetRanges (accum f) (dimsFor f parts) := by
  induction parts generalizing accum with
  | nil => simp [scanPartitions, rangesFor, dimsFor, offsetRanges]
  | cons p rest ih =>
    simp only [scanPartitions, rangesFor, List.map_cons, List.flatten_cons]
    rw [show (List.map (fun es => es.filterMap (fun t =>
      if t.1 = f then some (t.2.start_idx, t.2.end_idx) else none))
        (scanPartitions (scanPartFields accum p.fields).1 rest).2).flatten =
        rangesFor f (scanPartitions (scanPartFields accum p.fields).1 rest).2 from rfl]
    rw [ih, scanPartFields_ranges, scanPartFields_accum]
    simp only [dimsFor, List.map_cons, List.flatten_cons]
    generalize (p.fields.filterMap (fun d =>
      if d.name = f then some (d.shape.headD 0) else none)) = ds
    generalize accum f = s
    induction ds generalizing s with
    | nil => simp [offsetRanges]
    | cons d dtl ihd =>
      simp only [offsetRanges, List.cons_append, List.sum_cons]
      rw [← Nat.add_assoc, ihd]
      rfl

theorem offsetRanges_length (s : Nat) (ds : List Nat) :
    (offsetRanges s ds).length = ds.length := by
  induction ds generalizing s with
  | nil => rfl
  | cons d tl ih => simp [offsetRanges, ih]

theorem offsetRanges_getElem? (s : Nat) (ds : List Nat) (i : Nat) :
    (offsetRanges s ds)[i]? =
      if i < ds.length then
        some (s + (ds.take i).sum, s + (ds.take (i + 1)).sum)
      else none := by
  induction ds generalizing s i with
  | nil => simp [offsetRanges]
  | cons d tl ih =>
    cases i with
    | zero => simp [offsetRanges]
    | succ j =>
      simp only [offsetRanges, List.getElem?_cons_succ, ih, List.take_succ_cons,
        List.sum_cons, List.length_cons]
      by_cases hj : j < tl.length
      · rw [if_pos hj, if_pos (by omega)]
        simp
        omega
      · rw [if_neg hj, if_neg (by omega)]

theorem recordedRanges_eq_offsetRanges (parts : List PartitionFile) (f : String) :
    recordedRanges parts f = offsetRanges 0 (dimsFor f parts) := by
  unfold recordedRanges
  rw [scanPartitions_ranges]

/-- C2: for every list of partition files scanned by the virtual
concatenation builder and every field name appearing in them, the recorded
per-partition index ranges start at `0`, satisfy
`end_idx = start_idx + leading dimension`, chain with no gaps or overlaps
(`end_idx` of one occurrence equals `start_idx` of the next, in file order),
and the final `end_idx` equals the sum of all contributing leading
dimensions. -/
theorem virtual_scan_offsets_cover (parts : List PartitionFile) (f : String)
    (hne : dimsFor f parts ≠ []) :
    (recordedRanges parts f).length = (dimsFor f parts).length ∧
      (∀ p : Nat × Nat, (recordedRanges parts f)[0]? = some p → p.1 = 0) ∧
      (∀ (i : Nat) (p : Nat × Nat) (d : Nat),
        (recordedRanges parts f)[i]? = some p →
        (dimsFor f parts)[i]? = some d → p.2 = p.1 + d) ∧
      (∀ (i : Nat) (p q : Nat × Nat),
        (recordedRanges parts f)[i]? = some p →
        (recordedRanges parts f)[i + 1]? = some q → p.2 = q.1) ∧
      (∀ p : Nat × Nat,
        (recordedRanges parts f)[(dimsFor f parts).length - 1]? = some p →
        p.2 = (dimsFor f parts).sum) := by
  have hrr := recordedRanges_eq_offsetRanges parts f
  generalize hds : dimsFor f parts = ds at hrr hne ⊢
  have hlen : 0 < ds.length := by
    cases ds with
    | nil => exact absurd rfl hne
    | cons a tl => simp
  refine ⟨by rw [hrr, offsetRanges_length], ?_, ?_, ?_, ?_⟩
  · intro p hp
    rw [hrr, offsetRanges_getElem?, if_pos hlen] at hp
    cases hp
    rfl
  · intro i p d hp hd
    rw [hrr, offsetRanges_getElem?] at hp
    have hi : i < ds.length := by
      by_contra hi
      rw [if_neg hi] at hp
      cases hp
    rw [if_pos hi] at hp
    cases hp
    have := List.sum_take_succ ds i hi
    have hdi : ds[i] = d := by
      have := List.getElem?_eq_getElem hi
      rw [this] at hd
      cases hd
      rfl
    simp only
    omega
  · intro i p q hp hq
    rw [hrr, offsetRanges_getElem?] at hp hq
    have hi1 : i + 1 < ds.length := by
      by_contra hi1
      rw [if_neg hi1] at hq
      cases hq
    rw [if_pos (by omega : i < ds.length)] at hp
    rw [if_pos hi1] at hq
    cases hp
    cases hq
    rfl
  · intro p hp
    rw [hrr, offsetRanges_getElem?, if_pos (by omega : ds.length - 1 < ds.length)] at hp
    cases hp
    have hsucc : ds.length - 1 + 1 = ds.length := by omega
    simp only [hsucc, List.take_length]
    omega

/-- Witness for C2: two partitions contributing leading dimensions `4` and
`3` to field `x` (the second partition also carries an unrelated field `y`). -/
theorem virtual_scan_offsets_cover_witness :
    dimsFor "x" [PartitionFile.mk [FieldDs.mk "x" [4, 8] "float32" []] [],
        PartitionFile.mk [FieldDs.mk "y" [5] "int16" [],
          FieldDs.mk "x" [3, 8] "float32" []] []] ≠ [] ∧
      (recordedRanges [PartitionFile.mk [FieldDs.mk "x" [4, 8] "float32" []] [],
          PartitionFile.mk [FieldDs.mk "y" [5] "int16" [],
            FieldDs.mk "x" [3, 8] "float32" []] []] "x" = [(0, 4), (4, 7)] ∧
        dimsFor "x" [PartitionFile.mk [FieldDs.mk "x" [4, 8] "float32" []] [],
          PartitionFile.mk [FieldDs.mk "y" [5] "int16" [],
            FieldDs.mk "x" [3, 8] "float32" []] []] = [4, 3]) ∧
      (∀ (i : Nat) (p q : Nat × Nat),
        (recordedRanges [PartitionFile.mk [FieldDs.mk "x" [4, 8] "float32" []] [],
          PartitionFile.mk [FieldDs.mk "y" [5] "int16" [],
            FieldDs.mk "x" [3, 8] "float32" []] []] "x")[i]? = some p →
        (recordedRanges [PartitionFile.mk [FieldDs.mk "x" [4, 8] "float32" []] [],
          PartitionFile.mk [FieldDs.mk "y" [5] "int16" [],
            FieldDs.mk "x" [3, 8] "float32" []] []] "x")[i + 1]? = some q →
        p.2 = q.1) :=
  ⟨by decide, by decide,
    (virtual_scan_offsets_cover
      [PartitionFile.mk [FieldDs.mk "x" [4, 8] "float32" []] [],
        PartitionFile.mk [FieldDs.mk "y" [5] "int16" [],
          FieldDs.mk "x" [3, 8] "float32" []] []] "x" (by decide)).2.2.2.1⟩

/-! ## Virtual concatenation builder: layouts, attributes, output -/

/-- The builder's per-field top-level spec (`virtual_specs["fields"]`):
dtype and attrs copied from the first partition containing the field, shape
accumulated along axis 0. -/
structure VSpec where
  dtype : String
  attrs : List (String × String)
  shape : List Nat
deriving Repr, DecidableEq

/-- Modelled from the spec: `stack_shape` lives in `h5pack/core/utils.py`,
absent from the snapshot.  Per spec §4.4 the aggregate shape is
`(sum of leading dims, *trailing dims)`. -/
def stack_shape (s1 s2 : List Nat) : List Nat :=
  (s1.headD 0 + s2.headD 0) :: s1.tail

/-- One step of the `virtual_specs["fields"]` update (`cli/utils.py` lines
177-192): a first occurrence records dtype, attrs and shape; a later
occurrence only stacks the shape. -/
def updateVSpec (m : List (String × VSpec)) (d : FieldDs) :
    List (String × VSpec) :=
  match lookupA m d.name with
  | none => m ++ [(d.name, ⟨d.dtype, d.attrs, d.shape⟩)]
  | some v =>
    m.map (fun e =>
      if e.1 = d.name then (e.1, ⟨v.dtype, v.attrs, stack_shape v.shape d.shape⟩)
      else e)

def vspecsOfFields (m : List (String × VSpec)) : List FieldDs → List (String × VSpec)
  | [] => m
  | d :: rest => vspecsOfFields (updateVSpec m d) rest

def vspecsOfPartitions (m : List (String × VSpec)) :
    List PartitionFile → List (String × VSpec)
  | [] => m
  | p :: rest => vspecsOfPartitions (vspecsOfFields m p.fields) rest

/-- One virtual dataset of the output file: its layout shape and dtype, the
attrs copied onto it, and the mapped sources
`(absolute source file, start_idx, end_idx)`. -/
structure VLayout where
  shape : List Nat
  dtype : String
  attrs : List (String × String)
  sources : List (String × Nat × Nat)
deriving Repr, DecidableEq

/-- The builder's result: the virtual datasets (in field first-seen order)
and the root attribute writes in write order. -/
structure VOut where
  layouts : List (String × VLayout)
  rootAttrs : List (String × String)
deriving Repr, DecidableEq

/-- The builder's failure modes present in the source: `exit_error` on an
invalid partition file, the uncaught `KeyError` of
`specs["fields"][field_name]` when a partition lacks a field, and the
uncaught `IndexError` of `partition_specs[0]` on an empty partition list. -/
inductive VErr where
  | invalidPartition (path : String)
  | missingField (field : String)
  | noPartitions
deriving Repr, DecidableEq

/-- The layout-filling loop over partitions for one field (`cli/utils.py`
lines 223-233). -/
def layoutSources (fname : String) :
    List (String × List (String × PEntry)) → Except VErr (List (String × Nat × Nat))
  | [] => .ok []
  | (pfile, fields) :: rest =>
    match lookupA fields fname with
    | none => .error (.missingField fname)
    | some e =>
      match layoutSources fname rest with
      | .error err => .error err
      | .ok rs => .ok ((pfile, e.start_idx, e.end_idx) :: rs)

/-- The layout-creation loop over the accumulated field specs
(`cli/utils.py` lines 214-233). -/
def mkLayouts (pspecs : List (String × List (String × PEntry))) :
    List (String × VSpec) → Except VErr (List (String × VLayout))
  | [] => .ok []
  | (fname, vs) :: rest =>
    match layoutSources fname pspecs with
    | .error err => .error err
    | .ok srcs =>
      match mkLayouts pspecs rest with
      | .error err => .error err
      | .ok ls => .ok ((fname, ⟨vs.shape, vs.dtype, vs.attrs, srcs⟩) :: ls)

/-- Shallow embedding of `create_virtual_dataset_from_partitions`
(`cli/utils.py` lines 142-266).  Each given partition path is paired with
`some` opened file, or `none` when `is_file_with_ext(partition, ".h5")`
fails (missing or non-`.h5` file); `cwd` is the working directory used by
`os.path.abspath`, `now` the generated timestamp, `ver` the package
version, `attrs` the optional caller-supplied root attributes.  The root
attributes are returned as the sequence of attribute writes in source
order: first partition's attributes, then caller attributes, then
`creation_date`, `source` and `producer`. -/
def buildFromOpened (cwd now ver : String) (origPaths : List String)
    (opened : List (String × PartitionFile))
    (attrs : Option (List (String × String))) : Except VErr VOut :=
  match opened with
  | [] => .error .noPartitions
  | first :: _ =>
    let pspecs := (opened.map (fun p => abspath cwd p.1)).zip
      (scanPartitions (fun _ => 0) (opened.map (fun p => p.2))).2
    let vspecs := vspecsOfPartitions [] (opened.map (fun p => p.2))
    match mkLayouts pspecs vspecs with
    | .error e => .error e
    | .ok ls =>
      .ok { layouts := ls
            rootAttrs := first.2.attrs ++ attrs.getD [] ++
              [("creation_date", now),
               ("source",
                 String.intercalate ", " (origPaths.map (fun p => basename p))),
               ("producer", "h5pack " ++ ver)] }

/-- See `buildFromOpened` for everything after the existence check. -/
def create_virtual_dataset_from_partitions (cwd now ver : String)
    (partitions : List (String × Option PartitionFile))
    (attrs : Option (List (String × String))) : Except VErr VOut :=
  match partitions.find? (fun p => p.2.isNone) with
  | some bad => .error (.invalidPartition bad.1)
  | none =>
    buildFromOpened cwd now ver (partitions.map (fun p => p.1))
      (partitions.filterMap (fun p => p.2.map (fun f => (p.1, f)))) attrs

/-! ## Producer gating of `info` and `unpack` -/

/-- The producer gate shared by `cli/info.py` and `cli/unpack.py`:
`h5_file.attrs.get("producer", "").startswith("h5pack")`. -/
def producerOk (attrs : List (String × String)) : Bool :=
  strStarts ((lookupA attrs "producer").getD "") "h5pack"

/-- What `cmd_info` prints for a conforming file: the root attributes, the
per-dataset shape/dtype report, and whether the virtual-sources section is
shown (`cli/info.py` line 65: only when the root attribute `is_virtual`
is present). -/
structure InfoOut where
  fileAttrs : List (String × String)
  datasets : List (String × List Nat × String)
  virtualSources : Bool
deriving Repr, DecidableEq

/-- Shallow embedding of `cmd_info` (`cli/info.py`).  A `none` input models
a missing or non-`.h5` path (`is_file_with_ext` failure). -/
def cmd_info (input : Option PartitionFile) : Except String InfoOut :=
  match input with
  | none => .error "Invalid input file"
  | some f =>
    if producerOk f.attrs then
      .ok { fileAttrs := f.attrs
            datasets := f.fields.map (fun d => (d.name, d.shape, d.dtype))
            virtualSources := (lookupA f.attrs "is_virtual").isSome }
    else
      .error "This file was not created using h5pack"

/-- Shallow embedding of `cmd_unpack`'s gating and field walk
(`cli/unpack.py`): fields without a `parser` attribute are skipped, the
rest are dispatched to their extractor.  The returned list is the
`(field_name, parser)` extraction plan. -/
def cmd_unpack (input : Option PartitionFile) :
    Except String (List (String × String)) :=
  match input with
  | none => .error "Invalid input file"
  | some f =>
    if producerOk f.attrs then
      .ok (f.fields.filterMap (fun d =>
        (lookupA d.attrs "parser").map (fun p => (d.name, p))))
    else
      .error "This file was not created using h5pack"

/-- C9: a root `producer` attribute that is missing or does not start with
`"h5pack"` makes both `unpack` and `info` terminate with an error before
any dataset content is extracted or printed, while a conforming producer
attribute lets both proceed. -/
theorem producer_gate_blocks_non_h5pack (f : PartitionFile) :
    (producerOk f.attrs = false →
      cmd_unpack (some f) = .error "This file was not created using h5pack" ∧
        cmd_info (some f) = .error "This file was not created using h5pack") ∧
      (producerOk f.attrs = true →
        (∃ plan, cmd_unpack (some f) = .ok plan) ∧
          ∃ out, cmd_info (some f) = .ok out) := by
  constructor
  · intro h
    simp [cmd_unpack, cmd_info, h]
  · intro h
    refine ⟨⟨f.fields.filterMap (fun d =>
        (lookupA d.attrs "parser").map (fun p => (d.name, p))), ?_⟩,
      ⟨⟨f.attrs, f.fields.map (fun d => (d.name, d.shape, d.dtype)),
        (lookupA f.attrs "is_virtual").isSome⟩, ?_⟩⟩ <;>
      simp [cmd_unpack, cmd_info, h]

/-- Witness for C9: a file produced by `h5pack 1.0.0` is processed by both
commands; a file with producer `numpy` (and one with no producer at all) is
rejected by both. -/
theorem producer_gate_blocks_non_h5pack_witness :
    (cmd_unpack (some ⟨[], [("producer", "numpy 2.0")]⟩) =
        .error "This file was not created using h5pack" ∧
      cmd_info (some ⟨[], [("producer", "numpy 2.0")]⟩) =
        .error "This file was not created using h5pack") ∧
      (cmd_unpack (some ⟨[], [("creation_date", "2026-10-12")]⟩) =
        .error "This file was not created using h5pack" ∧
      cmd_info (some ⟨[], [("creation_date", "2026-10-12")]⟩) =
        .error "This file was not created using h5pack") ∧
      ((∃ plan, cmd_unpack
          (some ⟨[⟨"x", [4], "float32", [("parser", "as_float32")]⟩],
            [("producer", "h5pack 1.0.0")]⟩) = .ok plan) ∧
        ∃ out, cmd_info
          (some ⟨[⟨"x", [4], "float32", [("parser", "as_float32")]⟩],
            [("producer", "h5pack 1.0.0")]⟩) = .ok out) :=
  ⟨(producer_gate_blocks_non_h5pack ⟨[], [("producer", "numpy 2.0")]⟩).1 (by decide),
    (producer_gate_blocks_non_h5pack ⟨[], [("creation_date", "2026-10-12")]⟩).1 (by decide),
    (producer_gate_blocks_non_h5pack
      ⟨[⟨"x", [4], "float32", [("parser", "as_float32")]⟩],
        [("producer", "h5pack 1.0.0")]⟩).2 (by decide)⟩

/-! ## C3: dtype mismatch across partitions -/

/-- C3 (code defect): the builder performs no dtype compatibility check —
`are_partitions_compatible` is a stub and nothing raises an
`IncompatibleFieldError`.  On two partitions whose field `x` is `float32`
in one and `float64` in the other, the build succeeds and silently uses the
first partition's dtype for the virtual dataset. -/
theorem virtual_build_ignores_dtype_mismatch :
    create_virtual_dataset_from_partitions "/cwd" "2026-10-12 00:00:00" "1.0.0"
      [("p.pt0.h5", some ⟨[⟨"x", [4, 100], "float32", []⟩],
          [("producer", "h5pack 1.0.0")]⟩),
        ("p.pt1.h5", some ⟨[⟨"x", [4, 100], "float64", []⟩],
          [("producer", "h5pack 1.0.0")]⟩)]
      none =
      .ok { layouts := [("x",
              { shape := [8, 100], dtype := "float32", attrs := [],
                sources := [("/cwd/p.pt0.h5", 0, 4), ("/cwd/p.pt1.h5", 4, 8)] })],
            rootAttrs := [("producer", "h5pack 1.0.0"),
              ("creation_date", "2026-10-12 00:00:00"),
              ("source", "p.pt0.h5, p.pt1.h5"),
              ("producer", "h5pack 1.0.0")] } := by
  rfl

/-! ## C8: root attributes of the built virtual file -/

/-- C8 (code defect): the builder writes the first partition's root
attributes, overridden/extended by the caller-supplied attributes, plus a
generated `creation_date`, a `source` listing all contributing basenames
and a `producer` tag — but no `is_virtual` marker, while `cmd_info`'s
virtual-sources report is guarded by exactly that attribute
(`cli/info.py` line 65), so the report never triggers on the built file. -/
theorem virtual_root_attrs_no_virtual_marker :
    ∃ out, create_virtual_dataset_from_partitions "/cwd" "2026-10-12 00:00:00"
          "1.0.0"
          [("p.pt0.h5", some ⟨[⟨"x", [4, 100], "float32", []⟩],
              [("producer", "h5pack 0.9.0"), ("origin", "lab"),
                ("licence", "MIT")]⟩),
            ("data/p.pt1.h5", some ⟨[⟨"x", [4, 100], "float32", []⟩],
              [("producer", "h5pack 0.9.0")]⟩)]
          (some [("licence", "CC0"), ("extra", "1")]) = .ok out ∧
      lookupLast out.rootAttrs "origin" = some "lab" ∧
      lookupLast out.rootAttrs "licence" = some "CC0" ∧
      lookupLast out.rootAttrs "extra" = some "1" ∧
      lookupLast out.rootAttrs "creation_date" = some "2026-10-12 00:00:00" ∧
      lookupLast out.rootAttrs "source" = some "p.pt0.h5, p.pt1.h5" ∧
      lookupLast out.rootAttrs "producer" = some "h5pack 1.0.0" ∧
      lookupLast out.rootAttrs "is_virtual" = none ∧
      cmd_info (some ⟨[⟨"x", [8, 100], "float32", []⟩], out.rootAttrs⟩) =
        .ok ⟨out.rootAttrs, [("x", [8, 100], "float32")], false⟩ := by
  refine ⟨_, rfl, ?_, ?_, ?_, ?_, ?_, ?_, ?_, ?_⟩ <;> rfl

/-! ## C10: absolute source paths in the virtual layout -/

theorem isAbs_append (cwd x : String) (h : isAbs cwd = true) :
    isAbs (cwd ++ x) = true := by
  unfold isAbs strStarts at h ⊢
  rw [String.data_append]
  rw [show ("/" : String).data = ['/'] from rfl] at h ⊢
  cases hc : cwd.data with
  | nil => rw [hc] at h; simp [listStarts] at h
  | cons c cs =>
    rw [hc] at h
    simp [listStarts] at h ⊢
    exact h

theorem abspath_isAbs (cwd p : String) (h : isAbs cwd = true) :
    isAbs (abspath cwd p) = true := by
  unfold abspath
  by_cases hp : isAbs p
  · rw [if_pos hp]; exact hp
  · rw [if_neg hp]
    exact isAbs_append _ p (isAbs_append cwd "/" h)

theorem layoutSources_mem (fname : String)
    (pspecs : List (String × List (String × PEntry)))
    (srcs : List (String × Nat × Nat)) (h : layoutSources fname pspecs = .ok srcs) :
    ∀ s ∈ srcs, ∃ q ∈ pspecs, s.1 = q.1 := by
  induction pspecs generalizing srcs with
  | nil =>
    simp only [layoutSources] at h
    cases h
    intro s hs
    cases hs
  | cons q rest ih =>
    obtain ⟨pfile, fields⟩ := q
    simp only [layoutSources] at h
    cases hl : lookupA fields fname with
    | none => rw [hl] at h; cases h
    | some e =>
      rw [hl] at h
      cases hr : layoutSources fname rest with
      | error err => rw [hr] at h; cases h
      | ok rs =>
        rw [hr] at h
        cases h
        intro s hs
        rcases List.mem_cons.mp hs with hs | hs
        · subst hs
          exact ⟨(pfile, fields), List.mem_cons_self _ _, rfl⟩
        · obtain ⟨q', hq', he⟩ := ih rs hr s hs
          exact ⟨q', List.mem_cons_of_mem _ hq', he⟩

theorem mkLayouts_mem (pspecs : List (String × List (String × PEntry)))
    (vspecs : List (String × VSpec)) (ls : List (String × VLayout))
    (h : mkLayouts pspecs vspecs = .ok ls) :
    ∀ l ∈ ls, ∀ s ∈ l.2.sources, ∃ q ∈ pspecs, s.1 = q.1 := by
  induction vspecs generalizing ls with
  | nil =>
    simp only [mkLayouts] at h
    cases h
    intro l hl
    cases hl
  | cons v rest ih =>
    obtain ⟨fname, vs⟩ := v
    simp only [mkLayouts] at h
    cases hs : layoutSources fname pspecs with
    | error err => rw [hs] at h; cases h
    | ok srcs =>
      rw [hs] at h
      cases hm : mkLayouts pspecs rest with
      | error err => rw [hm] at h; cases h
      | ok ls' =>
        rw [hm] at h
        cases h
        intro l hl
        rcases List.mem_cons.mp hl with hl | hl
        · subst hl
          exact layoutSources_mem fname pspecs srcs hs
        · exact ih ls' hm l hl

/-- C10: every source file path recorded in the virtual layout is the
`os.path.abspath` image of one of the given partition paths — the
conversion is unconditional, for all inputs of the builder — and is an
absolute path. -/
theorem virtual_sources_are_abspaths (cwd now ver : String)
    (partitions : List (String × Option PartitionFile))
    (attrs : Option (List (String × String))) (out : VOut)
    (hok : create_virtual_dataset_from_partitions cwd now ver partitions attrs
      = .ok out)
    (hcwd : isAbs cwd = true) :
    ∀ l ∈ out.layouts, ∀ s ∈ l.2.sources,
      (∃ p ∈ partitions, s.1 = abspath cwd p.1) ∧ isAbs s.1 = true := by
  unfold create_virtual_dataset_from_partitions at hok
  cases hf : partitions.find? (fun p => p.2.isNone) with
  | some bad => rw [hf] at hok; cases hok
  | none =>
    rw [hf] at hok
    unfold buildFromOpened at hok
    cases hE : partitions.filterMap (fun p => p.2.map (fun f => (p.1, f))) with
    | nil => rw [hE] at hok; cases hok
    | cons first rest =>
      rw [hE] at hok
      simp only at hok
      cases hm : mkLayouts
          (((first :: rest).map (fun p => abspath cwd p.1)).zip
            (scanPartitions (fun _ => 0) ((first :: rest).map (fun p => p.2))).2)
          (vspecsOfPartitions [] ((first :: rest).map (fun p => p.2))) with
      | error e => rw [hm] at hok; cases hok
      | ok ls =>
        rw [hm] at hok
        cases hok
        intro l hl s hs
        obtain ⟨q, hq, he⟩ := mkLayouts_mem _ _ ls hm l hl s hs
        have hq1 := (List.of_mem_zip hq).1
        obtain ⟨o, ho, hoq⟩ := List.mem_map.mp hq1
        have hs1 : s.1 = abspath cwd o.1 := by rw [he, ← hoq]
        rw [← hE] at ho
        obtain ⟨p, hp, hpo⟩ := List.mem_filterMap.mp ho
        have hpo1 : o.1 = p.1 := by
          cases p2 : p.2 with
          | none => rw [p2] at hpo; cases hpo
          | some f => rw [p2] at hpo; cases hpo; rfl
        refine ⟨⟨p, hp, by rw [hs1, hpo1]⟩, ?_⟩
        rw [hs1]
        exact abspath_isAbs cwd o.1 hcwd

/-- Witness for C10: a build over one relative and one absolute partition
path; both recorded sources are abspath images of the inputs, hence
absolute. -/
theorem virtual_sources_are_abspaths_witness :
    ((∃ p ∈ [("rel/p0.h5",
          some (PartitionFile.mk [⟨"x", [2, 4], "int16", []⟩]
            [("producer", "h5pack 1.0.0")])),
        ("/abs/p1.h5",
          some (PartitionFile.mk [⟨"x", [3, 4], "int16", []⟩]
            [("producer", "h5pack 1.0.0")]))],
        "/cwd/rel/p0.h5" = abspath "/cwd" p.1) ∧
      isAbs "/cwd/rel/p0.h5" = true) ∧
    ((∃ p ∈ [("rel/p0.h5",
          some (PartitionFile.mk [⟨"x", [2, 4], "int16", []⟩]
            [("producer", "h5pack 1.0.0")])),
        ("/abs/p1.h5",
          some (PartitionFile.mk [⟨"x", [3, 4], "int16", []⟩]
            [("producer", "h5pack 1.0.0")]))],
        "/abs/p1.h5" = abspath "/cwd" p.1) ∧
      isAbs "/abs/p1.h5" = true) :=
  ⟨virtual_sources_are_abspaths "/cwd" "t0" "1.0.0"
      [("rel/p0.h5", some ⟨[⟨"x", [2, 4], "int16", []⟩],
          [("producer", "h5pack 1.0.0")]⟩),
        ("/abs/p1.h5", some ⟨[⟨"x", [3, 4], "int16", []⟩],
          [("producer", "h5pack 1.0.0")]⟩)]
      none _ rfl rfl
      ("x", ⟨[5, 4], "int16", [],
        [("/cwd/rel/p0.h5", 0, 2), ("/abs/p1.h5", 2, 5)]⟩)
      (by decide) ("/cwd/rel/p0.h5", 0, 2) (by decide),
    virtual_sources_are_abspaths "/cwd" "t0" "1.0.0"
      [("rel/p0.h5", some ⟨[⟨"x", [2, 4], "int16", []⟩],
          [("producer", "h5pack 1.0.0")]⟩),
        ("/abs/p1.h5", some ⟨[⟨"x", [3, 4], "int16", []⟩],
          [("producer", "h5pack 1.0.0")]⟩)]
      none _ rfl rfl
      ("x", ⟨[5, 4], "int16", [],
        [("/cwd/rel/p0.h5", 0, 2), ("/abs/p1.h5", 2, 5)]⟩)
      (by decide) ("/abs/p1.h5", 2, 5) (by decide)⟩

/-! ## Audio encoder, extractor and validators -/

/-- Modelled from the spec (audio codec collaborator, §6): an audio file
together with what `read_audio_metadata` / `read_audio` return for it —
sample rate `fs`, channel count, and the PCM samples
(`num_samples_per_channel = samples.length`). -/
structure AudioFile where
  path : String
  fs : Nat
  numChannels : Nat
  samples : List Int
deriving Repr, DecidableEq

/-- A dataset written into a partition's `data` group by the audio encoder:
either the audio matrix (with its dataset shape and its `sample_rate` and
`parser` attributes) or the companion per-row filename dataset. -/
inductive GroupEntry where
  | audio (shape : List Nat) (rows : List (List Int)) (sampleRate : Nat)
      (parserAttr : String)
  | names (vals : List String)
deriving Repr, DecidableEq

/-- The `sample_rate` attribute of an audio dataset, when present. -/
def sampleRateOf : GroupEntry → Option Nat
  | .audio _ _ fs _ => some fs
  | .names _ => none

/-- Shallow embedding of `_as_audiodtype` (`data/parsers.py` lines 17-112)
for one encode call's resolved file list: the metadata scan classifies the
batch as fixed-length or ragged (`vlen` becomes true as soon as a second
distinct per-file sample count is observed), the `sample_rate` attribute is
taken from the FIRST file with no consistency check (lines 71-72), the rows
are written in order, and the per-row basenames go into a companion dataset
named `<field>__filepath` — double underscore (line 94).  An empty file
list makes `files[0]` raise `IndexError`, modelled as `none`. -/
def encodeAudio (fieldName parserName : String) (files : List AudioFile) :
    Option (List (String × GroupEntry)) :=
  match files with
  | [] => none
  | f0 :: _ =>
    let lens := files.map (fun f => f.samples.length)
    let vlen := lens.any (fun l => l != f0.samples.length)
    let shape := if vlen then [files.length] else [files.length, lens.getLastD 0]
    some [(fieldName,
        .audio shape (files.map (fun f => f.samples)) f0.fs parserName),
      (fieldName ++ "__filepath", .names (files.map (fun f => basename f.path)))]

/-- What `_from_audiodtype` produces: the filepath column appended to the
reconstruction csv, and the `(filename, samples)` pairs handed to
`write_audio` with the decoded sample rate. -/
structure ExtractOut where
  csvColumn : List String
  written : List (String × List Int)
  fs : Nat
deriving Repr, DecidableEq

/-- Shallow embedding of `_from_audiodtype` (`data/extractors.py` lines
8-94): reads the companion dataset `<field>_filepath` — single underscore
(line 39) — then writes each row of the main dataset to the corresponding
filename (2-D branch for fixed length, 1-D branch for ragged; any other
rank writes nothing).  A failed dataset lookup is the uncaught `KeyError`
of the source, modelled as `none`. -/
def decodeAudio (fieldName : String) (group : List (String × GroupEntry)) :
    Option ExtractOut :=
  match lookupA group (fieldName ++ "_filepath") with
  | some (.names fns) =>
    match lookupA group fieldName with
    | some (.audio shape rows fs _) =>
      some { csvColumn := fns.map (fun f => "data/" ++ fieldName ++ "/" ++ f)
             written :=
               if shape.length = 2 ∨ shape.length = 1 then fns.zip rows else []
             fs := fs }
    | _ => none
  | _ => none

/-- C4 (code defect): the encoder writes the companion filename dataset as
`audio__filepath` (double underscore) but the extractor looks up
`audio_filepath` (single underscore), so decoding the encoded container
fails with a `KeyError` instead of reproducing the basename order — even
though the basenames are present, in order, under the double-underscore
name. -/
theorem audio_roundtrip_filepath_mismatch :
    ∃ g, encodeAudio "audio" "as_audioint16"
        [⟨"clips/a.wav", 16000, 1, [1, 2, 3]⟩,
          ⟨"clips/b.wav", 16000, 1, [4, 5, 6]⟩] = some g ∧
      lookupA g "audio__filepath" = some (.names ["a.wav", "b.wav"]) ∧
      lookupA g "audio_filepath" = none ∧
      decodeAudio "audio" g = none := by
  exact ⟨_, rfl, rfl, rfl, rfl⟩

/-- `listStarts` on reversed data: `strEnds s pat` is Python
`s.endswith(pat)`. -/
def strEnds (s pat : String) : Bool := listStarts pat.data.reverse s.data.reverse

/-- Modelled from the spec: `get_allowed_audio_extensions` is referenced
from `data/validators.py` but not defined in the snapshot of
`core/config.py`; the spec only requires "an allowed extension", so a
representative list is used — no claim depends on its exact contents. -/
def allowedAudioExtensions : List String := [".wav", ".flac"]

/-- Python `is_file_with_ext_or_error`'s extension side for audio files. -/
def hasAllowedExt (p : String) : Bool :=
  allowedAudioExtensions.any (fun e => strEnds p e)

/-- The failures of `_validate_file_as_audiodtype`: a missing or
non-allowed file, a `ChannelCountError`, or a `SampleRateError`. -/
inductive AValErr where
  | fileError (path : String)
  | channelCount (path : String) (n : Nat)
  | sampleRate (expected got : Nat)
deriving Repr, DecidableEq

/-- One iteration of `_validate_file_as_audiodtype`'s loop
(`data/validators.py` lines 122-149), threading the `observed_fs`
accumulator: the file must exist with an allowed extension and be mono, and
its rate joins `observed_fs` unless already present; two distinct observed
rates raise `SampleRateError(observed_fs[0], observed_fs[-1])`. -/
def validateAudioStep (obs : List Nat) (f : AudioFile) :
    Except AValErr (List Nat) :=
  if ¬ hasAllowedExt f.path then .error (.fileError f.path)
  else if f.numChannels ≠ 1 then .error (.channelCount f.path f.numChannels)
  else
    let obs' := if f.fs ∈ obs then obs else obs ++ [f.fs]
    if 1 < obs'.length then .error (.sampleRate (obs'.headD 0) (obs'.getLastD 0))
    else .ok obs'

def validateAudioGo (obs : List Nat) : List AudioFile → Except AValErr Unit
  | [] => .ok ()
  | f :: rest =>
    match validateAudioStep obs f with
    | .error e => .error e
    | .ok obs' => validateAudioGo obs' rest

/-- Shallow embedding of `_validate_file_as_audiodtype`
(`data/validators.py` lines 100-149) over the resolved file column. -/
def validateAudioFiles (files : List AudioFile) : Except AValErr Unit :=
  validateAudioGo [] files

/-- C6 (counterexample): an audio encode call whose row range references
two distinct sample rates does not fail — the encoder completes and writes
a dataset whose `sample_rate` attribute is the first file's rate. -/
theorem audio_encoder_accepts_mixed_rates :
    ∃ g, encodeAudio "audio" "as_audiofloat32"
        [⟨"a.wav", 16000, 1, [1, 2]⟩, ⟨"b.wav", 44100, 1, [3, 4]⟩] = some g ∧
      lookupA g "audio" =
        some (.audio [2, 2] [[1, 2], [3, 4]] 16000 "as_audiofloat32") := by
  exact ⟨_, rfl, rfl⟩

theorem validateAudioGo_established (a : Nat) (rest : List AudioFile)
    (hok : ∀ f ∈ rest, hasAllowedExt f.path = true ∧ f.numChannels = 1)
    (hmix : ∃ f ∈ rest, f.fs ≠ a) :
    ∃ got, validateAudioGo [a] rest = .error (.sampleRate a got) ∧ got ≠ a := by
  induction rest with
  | nil =>
    obtain ⟨f, hf, _⟩ := hmix
    cases hf
  | cons f tl ih =>
    obtain ⟨he, hc⟩ := hok f (List.mem_cons_self _ _)
    by_cases hfs : f.fs = a
    · have hmix' : ∃ g ∈ tl, g.fs ≠ a := by
        obtain ⟨g, hg, hga⟩ := hmix
        rcases List.mem_cons.mp hg with hg | hg
        · subst hg; exact absurd hfs hga
        · exact ⟨g, hg, hga⟩
      obtain ⟨got, hgo, hne⟩ :=
        ih (fun g hg => hok g (List.mem_cons_of_mem _ hg)) hmix'
      refine ⟨got, ?_, hne⟩
      simp only [validateAudioGo, validateAudioStep, he, hc]
      simp [hfs, hgo]
    · refine ⟨f.fs, ?_, hfs⟩
      simp only [validateAudioGo, validateAudioStep, he, hc]
      simp [hfs]

/-- C6 (amended): the encoder itself performs no sample-rate check — it
records the first file's rate as the `sample_rate` attribute — and mixed
sample rates are instead rejected by the validation phase: the audio
validator fails with `SampleRateError` against the rate established by the
first file. -/
theorem audio_mixed_rates_rejected_by_validator (files : List AudioFile)
    (f0 : AudioFile) (h0 : files.head? = some f0)
    (hok : ∀ f ∈ files, hasAllowedExt f.path = true ∧ f.numChannels = 1)
    (hmix : ∃ f ∈ files, f.fs ≠ f0.fs) :
    (∃ got, validateAudioFiles files = .error (.sampleRate f0.fs got) ∧
        got ≠ f0.fs) ∧
      ∀ fieldName parserName, ∃ g,
        encodeAudio fieldName parserName files = some g ∧
        (lookupA g fieldName).bind sampleRateOf = some f0.fs := by
  cases files with
  | nil => cases h0
  | cons fh rest =>
    have hfh : fh = f0 := by
      simp only [List.head?] at h0
      cases h0
      rfl
    subst hfh
    constructor
    · obtain ⟨he, hc⟩ := hok fh (List.mem_cons_self _ _)
      have hmix' : ∃ g ∈ rest, g.fs ≠ fh.fs := by
        obtain ⟨g, hg, hga⟩ := hmix
        rcases List.mem_cons.mp hg with hg | hg
        · subst hg; exact absurd rfl hga
        · exact ⟨g, hg, hga⟩
      obtain ⟨got, hgo, hne⟩ := validateAudioGo_established fh.fs rest
        (fun g hg => hok g (List.mem_cons_of_mem _ hg)) hmix'
      refine ⟨got, ?_, hne⟩
      simp only [validateAudioFiles, validateAudioGo, validateAudioStep, he, hc]
      simpa using hgo
    · intro fieldName parserName
      refine ⟨_, rfl, ?_⟩
      simp [lookupA, List.find?, sampleRateOf]

/-- Witness for C6 (amended) at the spec's scenario: sample rates
`[16000, 16000, 44100]` — the validator fails against the established
16000, while the encoder would record 16000. -/
theorem audio_mixed_rates_rejected_by_validator_witness :
    ([⟨"a.wav", 16000, 1, [1, 2]⟩, ⟨"b.wav", 16000, 1, [3, 4]⟩,
        ⟨"c.wav", 44100, 1, [5, 6]⟩] : List AudioFile).head? =
        some ⟨"a.wav", 16000, 1, [1, 2]⟩ ∧
      ((∃ got, validateAudioFiles
          [⟨"a.wav", 16000, 1, [1, 2]⟩, ⟨"b.wav", 16000, 1, [3, 4]⟩,
            ⟨"c.wav", 44100, 1, [5, 6]⟩] =
            .error (.sampleRate 16000 got) ∧ got ≠ 16000) ∧
        ∀ fieldName parserName, ∃ g,
          encodeAudio fieldName parserName
            [⟨"a.wav", 16000, 1, [1, 2]⟩, ⟨"b.wav", 16000, 1, [3, 4]⟩,
              ⟨"c.wav", 44100, 1, [5, 6]⟩] = some g ∧
          (lookupA g fieldName).bind sampleRateOf = some 16000) :=
  ⟨rfl, audio_mixed_rates_rejected_by_validator
    [⟨"a.wav", 16000, 1, [1, 2]⟩, ⟨"b.wav", 16000, 1, [3, 4]⟩,
      ⟨"c.wav", 44100, 1, [5, 6]⟩]
    ⟨"a.wav", 16000, 1, [1, 2]⟩ rfl (by decide) (by decide)⟩

/-! ## Parallel partition collection order -/

/-- Shallow embedding of the supervisor loop of `cmd_pack`'s parallel
branch (`cli/pack.py` lines 287-325).  `passes` lists, per poll iteration,
which jobs' `job.ready()` is true (in a real run readiness is monotone and
eventually total; the pass list doubles as fuel).  Each iteration scans
jobs in ascending index order and appends every newly-ready job's
partition index to the result — the queue poll above the scan only feeds
the progress display.  The loop runs while `len(finished_jobs) < n`; the
returned index order is the order in which `partition_filenames` receives
each partition's filename. -/
def collectReady (n : Nat) : List (Nat → Bool) → List Nat → List Nat
  | [], _ => []
  | ready :: rest, fin =>
    if fin.length < n then
      let new := (List.range n).filter (fun j => ready j && ! fin.contains j)
      new ++ collectReady n rest (fin ++ new)
    else []

/-- C5 (code defect): with 2 partitions and 2 workers, if at the
supervisor's first poll iteration only job 1 is ready and at the second
both are, the partition filenames are appended in order `[1, 0]` — not
ascending partition order; when instead all jobs are already complete at
the first poll, the order is ascending. -/
theorem parallel_collection_not_index_ordered :
    collectReady 2 [fun j => j == 1, fun _ => true] [] = [1, 0] ∧
      collectReady 2 [fun j => j == 1, fun _ => true] [] ≠ [0, 1] ∧
      collectReady 2 [fun _ => true] [] = [0, 1] := by
  exact ⟨rfl, by decide, rfl⟩

/-! ## Checksum ledger verification -/

/-- One line's outcome printed by the verification branch of
`cmd_checksum`. -/
inductive ChkReport where
  | ok (name : String)
  | mismatch (name saved computed : String)
deriving Repr, DecidableEq

/-- Shallow embedding of the verification branch of `cmd_checksum`
(`cli/checksum.py` lines 39-63).  `fs` models the filesystem relative to
the ledger's folder: the computed checksum of an existing `.h5` file, or
`none` when `is_file_with_ext(h5_file, ".h5")` fails — which the source
answers with `exit_error`, aborting the run.  The result pairs the reports
printed before any abort with `true` iff the run aborted. -/
def verifyLedger (fs : String → Option String) :
    List (String × String) → List ChkReport × Bool
  | [] => ([], false)
  | (name, saved) :: rest =>
    match fs name with
    | none => ([], true)
    | some computed =>
      let r := if saved = computed then ChkReport.ok name
        else ChkReport.mismatch name saved computed
      let (rs, ab) := verifyLedger fs rest
      (r :: rs, ab)

/-- C7 (counterexample): a ledger whose first line references a missing
file aborts immediately — neither that line nor the following (matching)
line is reported, so not every line is processed. -/
theorem checksum_verify_aborts_on_missing_file :
    verifyLedger (fun n => if n = "b.h5" then some "c2" else none)
        [("a.h5", "c1"), ("b.h5", "c2")] = ([], true) ∧
      ((verifyLedger (fun n => if n = "b.h5" then some "c2" else none)
          [("a.h5", "c1"), ("b.h5", "c2")]).1.length ≠
        ([("a.h5", "c1"), ("b.h5", "c2")] : List (String × String)).length) := by
  exact ⟨rfl, by decide⟩

/-- C7 (amended): when every ledger line references an existing `.h5`
file, every line is reported as match or mismatch and the run never
aborts — in particular a mismatch never truncates the report, so lines
after a mismatching entry are still recomputed and reported. -/
theorem checksum_verify_reports_all (fs : String → Option String)
    (ledger : List (String × String))
    (h : ∀ e ∈ ledger, (fs e.1).isSome = true) :
    (verifyLedger fs ledger).2 = false ∧
      (verifyLedger fs ledger).1.length = ledger.length := by
  induction ledger with
  | nil => exact ⟨rfl, rfl⟩
  | cons e rest ih =>
    obtain ⟨name, saved⟩ := e
    have h1 := h _ (List.mem_cons_self _ _)
    cases hfs : fs name with
    | none => rw [hfs] at h1; simp at h1
    | some computed =>
      obtain ⟨ih1, ih2⟩ := ih (fun e he => h e (List.mem_cons_of_mem _ he))
      simp [verifyLedger, hfs, ih1, ih2]

/-- Witness for C7 (amended): a two-line ledger whose first line
mismatches; both lines are reported and the run does not abort. -/
theorem checksum_verify_reports_all_witness :
    (∀ e ∈ ([("a.h5", "WRONG"), ("b.h5", "c")] : List (String × String)),
        ((fun _ => some "c") e.1 : Option String).isSome = true) ∧
      ((verifyLedger (fun _ => some "c")
          [("a.h5", "WRONG"), ("b.h5", "c")]).2 = false ∧
        (verifyLedger (fun _ => some "c")
          [("a.h5", "WRONG"), ("b.h5", "c")]).1.length =
          ([("a.h5", "WRONG"), ("b.h5", "c")] : List (String × String)).length) :=
  ⟨by decide,
    checksum_verify_reports_all (fun _ => some "c")
      [("a.h5", "WRONG"), ("b.h5", "c")] (by decide)⟩

end H5pack
